import Mathlib

/-
  Verification of the distributed-table construction and rebalancing core
  (core/table/distributed_table.h) against its natural-language specification.

  Shallow embedding conventions:
  - feature vectors are lists of rationals, points stored in storage order;
  - machine ints are modelled as ℤ (ranks, positions) or ℕ (sizes, counts);
  - fallible operations (array reads that may be out of bounds, dereference
    of a possibly-null pointer) return Option, with none marking the invalid
    access;
  - randomness is modelled by an explicit supply of draws (a function from
    the draw position to the drawn value), consumed in program order.
-/

namespace DistributedTableSpec

/-- Modelled from the spec: the local tree builder table interface
(core/table/table.h is not part of the sources) exposes the dense point
data, the permutation array oldFromNew from storage order to original
identifiers, and the local tree.  The tree is reduced to the one fact the
distributed table reads, namely whether it exists (get_tree() != NULL). -/
structure TableType where
  data : List (List ℚ)
  old_from_new : List ℤ
  hasTree : Bool
deriving DecidableEq

/-- State of a DistributedTable: the three offset pointers (null modelled as
none) and the group size recorded at Init time. -/
structure DistributedTable where
  owned_table_ : Option TableType
  local_n_entries_ : Option (List ℤ)
  global_table_ : Option TableType
  table_outbox_group_comm_size_ : ℤ
deriving DecidableEq

/-- The default constructor: all pointers NULL, recorded group size -1. -/
def defaultDistributedTable : DistributedTable :=
  { owned_table_ := none
    local_n_entries_ := none
    global_table_ := none
    table_outbox_group_comm_size_ := -1 }

/-- State after Init: the owned shard is loaded, the entry-count directory is
populated by the all-gather, the recorded group size is the communicator
size.  Init never touches global_table_, which stays NULL. -/
def InitState (shard : TableType) (P : ℕ) (gatheredCounts : List ℤ) :
    DistributedTable :=
  { owned_table_ := some shard
    local_n_entries_ := some gatheredCounts
    global_table_ := none
    table_outbox_group_comm_size_ := (P : ℤ) }

/-- IsIndexed() dereferences global_table_ unconditionally and compares its
tree pointer with NULL; a NULL global_table_ makes the call itself an
invalid access (none). -/
def IsIndexed (t : DistributedTable) : Option Bool :=
  t.global_table_.map (fun g => g.hasTree)

/-- local_n_entries(rank_in): the guard rejects only rank_in >= recorded
group size (returning -1); any other rank is used directly as an array
index into the directory, where an index outside [0, length) is an
out-of-bounds read (none). -/
def local_n_entries (t : DistributedTable) (rank_in : ℤ) : Option ℤ :=
  if t.table_outbox_group_comm_size_ ≤ rank_in then some (-1)
  else
    t.local_n_entries_.bind (fun dir =>
      if 0 ≤ rank_in then dir[rank_in.toNat]? else none)

/-- The diagnostic print accompanies exactly the sentinel branch. -/
def local_n_entries_diagnostic (t : DistributedTable) (rank_in : ℤ) : Bool :=
  decide (t.table_outbox_group_comm_size_ ≤ rank_in)

/-- A TreeIterator value: the [begin_, end_) window and the cursor, which
starts at begin_ - 1.  The back-reference to the table is passed explicitly
to each operation. -/
structure TreeIterator where
  begin_ : ℤ
  end_ : ℤ
  current_index_ : ℤ
deriving DecidableEq

/-- get_node_iterator(begin, count): window [begin, begin + count), cursor
just before begin. -/
def get_node_iterator (b count : ℤ) : TreeIterator :=
  { begin_ := b, end_ := b + count, current_index_ := b - 1 }

/-- iterator_get_: reads the feature vector at a storage-order position of
the global table (a NULL global table or an out-of-range position is an
invalid access). -/
def iterator_get_ (t : DistributedTable) (reordered_position : ℤ) :
    Option (List ℚ) :=
  t.global_table_.bind (fun g =>
    if 0 ≤ reordered_position then g.data[reordered_position.toNat]?
    else none)

/-- Modelled from the spec: IndexUtil::Extract on the oldFromNew permutation
array (core/table/index_util.h is not part of the sources) reads the
original (pre-permutation) identifier recorded at a storage-order
position. -/
def IndexUtilExtract (old_from_new : List ℤ) (pos : ℤ) : Option ℤ :=
  if 0 ≤ pos then old_from_new[pos.toNat]? else none

/-- iterator_get_id_: the raw position when the table is not indexed, the
old_from_new entry at that position when it is. -/
def iterator_get_id_ (t : DistributedTable) (reordered_position : ℤ) :
    Option ℤ :=
  (IsIndexed t).bind (fun b =>
    if b = false then some reordered_position
    else t.global_table_.bind (fun g =>
      IndexUtilExtract g.old_from_new reordered_position))

/-- Next(entry, point_id): increments the cursor, then reads the point and
the identifier at the new cursor position.  Returns the advanced iterator
together with both outputs. -/
def TreeIterator.Next (it : TreeIterator) (t : DistributedTable) :
    TreeIterator × Option (List ℚ) × Option ℤ :=
  let ci := it.current_index_ + 1
  ({ begin_ := it.begin_, end_ := it.end_, current_index_ := ci },
   iterator_get_ t ci, iterator_get_id_ t ci)

/-- RandomPick(entry, point_id): point_id receives the drawn position in
[begin_, end_) itself, and the point is read at that same position; the
cursor is not moved.  The uniform draw is an explicit input. -/
def TreeIterator.RandomPick (it : TreeIterator) (t : DistributedTable)
    (draw : ℤ) : Option (List ℚ) × ℤ :=
  (iterator_get_ t draw, draw)

/-- get_id(i, point_id): identifier at relative offset i from begin_. -/
def TreeIterator.get_id (it : TreeIterator) (t : DistributedTable) (i : ℤ) :
    Option ℤ :=
  iterator_get_id_ t (it.begin_ + i)

/-- Claim C9: IsIndexed() is meant to return true exactly when a global
summary exists and false on a table that has only been Init-ed; the code
instead dereferences the NULL global_table_ pointer in that state, an
invalid access for every Init-ed, never-indexed table. -/
theorem C9_IsIndexed_after_Init_invalid_access
    (shard : TableType) (P : ℕ) (counts : List ℤ) :
    IsIndexed (InitState shard P counts) = none := rfl

/-- Claim C8, counterexample: with group size 1 and directory [7], the query
local_n_entries(-1) passes the only guard (since -1 < 1) and reads the
directory at index -1: an out-of-bounds read, not a sentinel return. -/
theorem C8_counterexample :
    local_n_entries
      (InitState { data := [[0]], old_from_new := [0], hasTree := false }
        1 [7]) (-1) = none := by
  decide

/-- Claim C8, amended: for every non-negative queried rank r,
local_n_entries returns -1 (with the diagnostic) when r is at least the
recorded group size, and otherwise returns the directory value at r without
an out-of-bounds read; negative ranks pass the guard and index out of
bounds. -/
theorem C8_local_n_entries_nonneg
    (t : DistributedTable) (dir : List ℤ) (r : ℤ)
    (hdir : t.local_n_entries_ = some dir)
    (hlen : (dir.length : ℤ) = t.table_outbox_group_comm_size_)
    (hr : 0 ≤ r) :
    (t.table_outbox_group_comm_size_ ≤ r →
        local_n_entries t r = some (-1) ∧
        local_n_entries_diagnostic t r = true) ∧
    (r < t.table_outbox_group_comm_size_ →
        local_n_entries t r = dir[r.toNat]? ∧
        (local_n_entries t r).isSome = true ∧
        local_n_entries_diagnostic t r = false) := by
  constructor
  · intro hge
    refine ⟨?_, ?_⟩
    · simp [local_n_entries, hge]
    · simp [local_n_entries_diagnostic, hge]
  · intro hlt
    have hnotge : ¬ t.table_outbox_group_comm_size_ ≤ r := not_le.mpr hlt
    have hidx : r.toNat < dir.length := by
      omega
    refine ⟨?_, ?_, ?_⟩
    · simp [local_n_entries, hnotge, hdir, hr]
    · have : local_n_entries t r = dir[r.toNat]? := by
        simp [local_n_entries, hnotge, hdir, hr]
      rw [this, List.getElem?_eq_getElem hidx]
      rfl
    · simp [local_n_entries_diagnostic, hnotge]

/-- A concrete Init-ed table with group size 2 and directory [4, 9]. -/
def c8t : DistributedTable :=
  InitState { data := [[0]], old_from_new := [0], hasTree := false } 2 [4, 9]

/-- Claim C8, witness: a concrete in-range query on a group of size 2. -/
theorem C8_witness :
    c8t.local_n_entries_ = some [4, 9] ∧
    (([(4:ℤ), 9]).length : ℤ) = c8t.table_outbox_group_comm_size_ ∧
    (0:ℤ) ≤ 1 ∧
    ((1:ℤ) < c8t.table_outbox_group_comm_size_ →
      local_n_entries c8t 1 = ([(4:ℤ), 9])[(1:ℤ).toNat]? ∧
      (local_n_entries c8t 1).isSome = true ∧
      local_n_entries_diagnostic c8t 1 = false) :=
  ⟨rfl, by decide, by decide,
    (C8_local_n_entries_nonneg c8t [4, 9] 1 rfl (by decide) (by decide)).2⟩

/-- Claim C2: Next(point, id) increments the cursor by exactly one, leaves
the window unchanged, returns the feature vector stored at the new
storage-order position of the referenced table, and returns as identifier
the raw position when the table is not indexed and the old_from_new entry
at that position when it is. -/
theorem C2_Next_advances_and_resolves
    (it : TreeIterator) (t : DistributedTable) (g : TableType)
    (hg : t.global_table_ = some g)
    (hpos : 0 ≤ it.current_index_ + 1)
    (hlt : (it.current_index_ + 1).toNat < g.data.length)
    (hperm : g.old_from_new.length = g.data.length) :
    ((it.Next t).1.current_index_ = it.current_index_ + 1 ∧
     (it.Next t).1.begin_ = it.begin_ ∧
     (it.Next t).1.end_ = it.end_) ∧
    ((it.Next t).2.1 = g.data[(it.current_index_ + 1).toNat]? ∧
     ((it.Next t).2.1).isSome = true) ∧
    ((it.Next t).2.2 =
      (if g.hasTree = false then some (it.current_index_ + 1)
       else g.old_from_new[(it.current_index_ + 1).toNat]?) ∧
     ((it.Next t).2.2).isSome = true) := by
  have hget : (it.Next t).2.1 = g.data[(it.current_index_ + 1).toNat]? := by
    simp [TreeIterator.Next, iterator_get_, hg, hpos]
  have hid : (it.Next t).2.2 =
      (if g.hasTree = false then some (it.current_index_ + 1)
       else g.old_from_new[(it.current_index_ + 1).toNat]?) := by
    cases hb : g.hasTree with
    | false =>
        simp [TreeIterator.Next, iterator_get_id_, IsIndexed, hg, hb]
    | true =>
        simp [TreeIterator.Next, iterator_get_id_, IsIndexed, hg, hb,
          IndexUtilExtract, hpos]
  refine ⟨⟨rfl, rfl, rfl⟩, ⟨hget, ?_⟩, ⟨hid, ?_⟩⟩
  · rw [hget, List.getElem?_eq_getElem hlt]
    rfl
  · rw [hid]
    cases hb : g.hasTree with
    | false => rfl
    | true =>
        have hlt2 : (it.current_index_ + 1).toNat < g.old_from_new.length :=
          by omega
        simp [List.getElem?_eq_getElem hlt2]

/-- A concrete indexed table: two points, old_from_new = [5, 9]. -/
def c2g : TableType :=
  { data := [[1], [2]], old_from_new := [5, 9], hasTree := true }

/-- A DistributedTable whose global table is c2g. -/
def c2t : DistributedTable :=
  { owned_table_ := none
    local_n_entries_ := none
    global_table_ := some c2g
    table_outbox_group_comm_size_ := 1 }

/-- Claim C2, witness: the first Next on a fresh cursor over [0, 2) of the
indexed table c2t lands on position 0, yielding point [1] and original
identifier 5. -/
theorem C2_witness :
    c2t.global_table_ = some c2g ∧
    (0:ℤ) ≤ (get_node_iterator 0 2).current_index_ + 1 ∧
    ((get_node_iterator 0 2).current_index_ + 1).toNat < c2g.data.length ∧
    c2g.old_from_new.length = c2g.data.length ∧
    ((((get_node_iterator 0 2).Next c2t).1.current_index_ =
        (get_node_iterator 0 2).current_index_ + 1 ∧
      (((get_node_iterator 0 2).Next c2t).1.begin_ =
        (get_node_iterator 0 2).begin_) ∧
      (((get_node_iterator 0 2).Next c2t).1.end_ =
        (get_node_iterator 0 2).end_)) ∧
     ((((get_node_iterator 0 2).Next c2t).2.1 =
        c2g.data[((get_node_iterator 0 2).current_index_ + 1).toNat]?) ∧
      ((((get_node_iterator 0 2).Next c2t).2.1).isSome = true)) ∧
     ((((get_node_iterator 0 2).Next c2t).2.2 =
        (if c2g.hasTree = false
         then some ((get_node_iterator 0 2).current_index_ + 1)
         else c2g.old_from_new[((get_node_iterator 0 2).current_index_ +
                1).toNat]?)) ∧
      ((((get_node_iterator 0 2).Next c2t).2.2).isSome = true))) :=
  ⟨rfl, by decide, by decide, by decide,
    C2_Next_advances_and_resolves (get_node_iterator 0 2) c2t c2g rfl
      (by decide) (by decide) (by decide)⟩

/-- Claim C10: RandomPick(point, id) stores into id the drawn storage-order
position from [begin_, end_) itself, whatever the indexed state of the
table, while iterator_get_id_ (the resolver used by Next and get_id) goes
through the old_from_new permutation on an indexed table. -/
theorem C10_RandomPick_raw_position
    (it : TreeIterator) (t : DistributedTable) (g : TableType) (draw : ℤ)
    (hg : t.global_table_ = some g)
    (hdraw : it.begin_ ≤ draw ∧ draw < it.end_) :
    (it.RandomPick t draw).2 = draw ∧
    (g.hasTree = true →
      iterator_get_id_ t draw =
        (if 0 ≤ draw then g.old_from_new[draw.toNat]? else none)) := by
  refine ⟨rfl, ?_⟩
  intro hb
  simp [iterator_get_id_, IsIndexed, hg, hb, IndexUtilExtract]

/-- Claim C10, witness: on the indexed table c2t, RandomPick with draw 1
stores the raw position 1, while the iterator identifier resolver maps
position 1 to original identifier 9. -/
theorem C10_witness :
    c2t.global_table_ = some c2g ∧
    ((get_node_iterator 0 2).begin_ ≤ 1 ∧
      (1:ℤ) < (get_node_iterator 0 2).end_) ∧
    (((get_node_iterator 0 2).RandomPick c2t 1).2 = 1 ∧
     (c2g.hasTree = true →
       iterator_get_id_ c2t 1 =
         (if (0:ℤ) ≤ 1 then c2g.old_from_new[(1:ℤ).toNat]? else none))) :=
  ⟨rfl, by decide,
    C10_RandomPick_raw_position (get_node_iterator 0 2) c2t c2g 1 rfl
      (by decide)⟩

/-- Componentwise vector sum (the arma vec += in ReplenishNodes_). -/
def vadd (u v : List ℚ) : List ℚ := List.zipWith (fun a b => a + b) u v

/-- The zero vector of dimension d (the arma .zeros() call). -/
def vzero (d : ℕ) : List ℚ := List.replicate d 0

/-- Scalar multiple of a vector (the final (1/num_samples) scaling). -/
def vsmul (c : ℚ) (v : List ℚ) : List ℚ := v.map (fun a => c * a)

/-- Modelled from the spec: core::math::RandInt(n) draws uniformly from
[0, n); with an explicit supply r the draw at supply position k is
r k % n. -/
def randInt (r : ℕ → ℕ) (k n : ℕ) : ℕ := r k % n

/-- The inner accumulation loop of ReplenishNodes_: starting from the zero
vector, add the centroid of a randomly chosen node of the current list, s
times, consuming supply positions k, k+1, ..., k+s-1. -/
def chooseSum (r : ℕ → ℕ) (nodes : List (List ℚ)) (d k : ℕ) :
    ℕ → List ℚ
  | 0 => vzero d
  | s + 1 =>
      vadd (chooseSum r nodes d k s)
        (nodes.getD (randInt r (k + s) nodes.length) (vzero d))

/-- The outer padding loop of ReplenishNodes_: while j synthetic leaves
remain, average num_samples randomly chosen centroids of the current list
(consuming num_samples supply draws) and append the new centroid-only
leaf. -/
def padLoop (r : ℕ → ℕ) (s d : ℕ) :
    ℕ → ℕ → List (List ℚ) → List (List ℚ)
  | 0, _, nodes => nodes
  | j + 1, k, nodes =>
      padLoop r s d j (k + s)
        (nodes ++ [vsmul (1 / (s : ℚ)) (chooseSum r nodes d k s)])

/-- ReplenishNodes_: reads the dimension from the first leaf (an invalid
access when the list is empty), computes num_additional = P - L and a
single num_samples = max(1, RandInt(L)) before the loop (supply position
0), then appends num_additional synthetic leaves. -/
def ReplenishNodes_ (P : ℕ) (r : ℕ → ℕ)
    (top_leaf_nodes : List (List ℚ)) : Option (List (List ℚ)) :=
  match top_leaf_nodes with
  | [] => none
  | c0 :: _ =>
      let num_additional := P - top_leaf_nodes.length
      let num_samples := max 1 (randInt r 0 top_leaf_nodes.length)
      some (padLoop r num_samples c0.length num_additional 1 top_leaf_nodes)

/-- The candidate-set preparation step inside IndexData: ReplenishNodes_
runs exactly when the broadcast leaf count is below the group size. -/
def padCandidates (P : ℕ) (r : ℕ → ℕ)
    (top_leaf_nodes : List (List ℚ)) : Option (List (List ℚ)) :=
  if top_leaf_nodes.length < P then ReplenishNodes_ P r top_leaf_nodes
  else some top_leaf_nodes

/-- padLoop appends exactly one leaf per remaining iteration. -/
theorem padLoop_length (r : ℕ → ℕ) (s d : ℕ) :
    ∀ (j k : ℕ) (nodes : List (List ℚ)),
      (padLoop r s d j k nodes).length = nodes.length + j := by
  intro j
  induction j with
  | zero => intro k nodes; rfl
  | succ n ih =>
      intro k nodes
      have h := ih (k + s)
        (nodes ++ [vsmul (1 / (s : ℚ)) (chooseSum r nodes d k s)])
      simp only [List.length_append, List.length_cons, List.length_nil] at h
      calc (padLoop r s d (n + 1) k nodes).length
          = (padLoop r s d n (k + s)
              (nodes ++ [vsmul (1 / (s : ℚ))
                (chooseSum r nodes d k s)])).length := rfl
        _ = nodes.length + (n + 1) := by omega

/-- Claim C5, counterexample: with an empty broadcast candidate list
(L = 0) and group size P = 1, we have L < P but the padding step starts by
reading the bound of the first leaf of the empty list, an invalid access:
the post-padding candidate count is not P. -/
theorem C5_counterexample :
    Option.map List.length (padCandidates 1 (fun _ => 0) []) ≠ some 1 := by
  decide

/-- Claim C5, amended: provided at least one candidate leaf was broadcast,
whenever L < P the padding appends exactly P - L synthetic leaves so the
post-padding candidate count is exactly P, and when L ≥ P no padding
occurs and the candidate set is unchanged; with an empty broadcast list
the padding step instead performs an invalid access. -/
theorem C5_padding_sufficiency
    (P : ℕ) (r : ℕ → ℕ) (top_leaf_nodes : List (List ℚ))
    (hne : top_leaf_nodes ≠ []) :
    (top_leaf_nodes.length < P →
      Option.map List.length (padCandidates P r top_leaf_nodes) = some P) ∧
    (P ≤ top_leaf_nodes.length →
      padCandidates P r top_leaf_nodes = some top_leaf_nodes) := by
  constructor
  · intro hlt
    obtain ⟨c0, rest, rfl⟩ := List.exists_cons_of_ne_nil hne
    have hrep : ReplenishNodes_ P r (c0 :: rest) =
        some (padLoop r (max 1 (randInt r 0 (c0 :: rest).length)) c0.length
          (P - (c0 :: rest).length) 1 (c0 :: rest)) := rfl
    simp only [padCandidates, if_pos hlt, hrep, Option.map_some',
      padLoop_length]
    have hP : (c0 :: rest).length + (P - (c0 :: rest).length) = P := by
      omega
    rw [hP]
  · intro hge
    simp [padCandidates, not_lt.mpr hge]

/-- Claim C5, witness: one broadcast leaf, group size 3: the padded
candidate set has exactly 3 leaves. -/
theorem C5_witness :
    ([[(0:ℚ)]] ≠ ([] : List (List ℚ))) ∧
    (([[(0:ℚ)]] : List (List ℚ)).length < 3 →
      Option.map List.length (padCandidates 3 (fun _ => 0) [[(0:ℚ)]]) =
        some 3) ∧
    ((3:ℕ) ≤ ([[(0:ℚ)]] : List (List ℚ)).length →
      padCandidates 3 (fun _ => 0) [[(0:ℚ)]] = some [[(0:ℚ)]]) :=
  ⟨by decide, C5_padding_sufficiency 3 (fun _ => 0) [[(0:ℚ)]] (by decide)⟩

/-- Modelled from the claim wording of C6: for each synthetic leaf a fresh
sample size s = max(1, RandInt(L)) is drawn (one supply position), then s
leaves are chosen at random (s further supply positions) and their
centroids averaged into the new leaf. -/
def perLeafLoop (r : ℕ → ℕ) (L d : ℕ) :
    ℕ → ℕ → List (List ℚ) → List (List ℚ)
  | 0, _, nodes => nodes
  | j + 1, k, nodes =>
      let s := max 1 (randInt r k L)
      perLeafLoop r L d j (k + 1 + s)
        (nodes ++ [vsmul (1 / (s : ℚ)) (chooseSum r nodes d (k + 1) s)])

/-- Modelled from the claim wording of C6: the per-leaf-fresh-sample-size
variant of the padding procedure. -/
def ReplenishPerLeafClaim (P : ℕ) (r : ℕ → ℕ)
    (top_leaf_nodes : List (List ℚ)) : Option (List (List ℚ)) :=
  match top_leaf_nodes with
  | [] => none
  | c0 :: _ =>
      some (perLeafLoop r top_leaf_nodes.length c0.length
        (P - top_leaf_nodes.length) 0 top_leaf_nodes)

/-- A concrete random supply distinguishing the two procedures. -/
def c6r : ℕ → ℕ := fun k => if k = 0 then 1 else if k = 3 then 1 else 0

/-- Claim C6, counterexample: on the two leaves [0] and [6] with group size
4, the code (one shared sample size, drawn once) produces synthetic
centroids [0], [0], while the per-leaf-fresh-size procedure described by
the claim produces [0], [6] under the same random supply. -/
theorem C6_counterexample :
    ReplenishNodes_ 4 c6r [[0], [6]] ≠
      ReplenishPerLeafClaim 4 c6r [[0], [6]] := by
  have hcode : ReplenishNodes_ 4 c6r [[0], [6]] =
      some [[0], [6], [0], [0]] := by
    simp [ReplenishNodes_, padLoop, chooseSum, vadd, vzero, vsmul, randInt,
      c6r]
  have hclaim : ReplenishPerLeafClaim 4 c6r [[0], [6]] =
      some [[0], [6], [0], [6]] := by
    simp [ReplenishPerLeafClaim, perLeafLoop, chooseSum, vadd, vzero, vsmul,
      randInt, c6r]
  rw [hcode, hclaim]
  simp

/-- One padding step of the amended procedure: append the average of s
randomly chosen centroids of the current list and advance the supply
cursor by s. -/
def padStep (r : ℕ → ℕ) (s d : ℕ) :
    List (List ℚ) × ℕ → List (List ℚ) × ℕ :=
  fun p => (p.1 ++ [vsmul (1 / (s : ℚ)) (chooseSum r p.1 d p.2 s)], p.2 + s)

/-- Modelled from the amended claim of C6: one sample size
s = max(1, RandInt(L)) is drawn once before the loop and shared by every
synthetic leaf; each synthetic leaf averages s centroids chosen at random
from the current candidate list, which already contains the earlier
synthetic leaves. -/
def ReplenishSharedClaim (P : ℕ) (r : ℕ → ℕ)
    (top_leaf_nodes : List (List ℚ)) : Option (List (List ℚ)) :=
  match top_leaf_nodes with
  | [] => none
  | c0 :: _ =>
      let s := max 1 (randInt r 0 top_leaf_nodes.length)
      some (((padStep r s c0.length)^[P - top_leaf_nodes.length]
        (top_leaf_nodes, 1)).1)

/-- The code padding loop is the iterate of the shared-size step. -/
theorem padLoop_eq_iterate (r : ℕ → ℕ) (s d : ℕ) :
    ∀ (j k : ℕ) (nodes : List (List ℚ)),
      padLoop r s d j k nodes = ((padStep r s d)^[j] (nodes, k)).1 := by
  intro j
  induction j with
  | zero => intro k nodes; rfl
  | succ n ih =>
      intro k nodes
      rw [Function.iterate_succ_apply]
      exact ih (k + s)
        (nodes ++ [vsmul (1 / (s : ℚ)) (chooseSum r nodes d k s)])

/-- Claim C6, amended: the sample size is drawn exactly once, before the
padding loop, and shared by all synthetic leaves; each synthetic leaf
carries only the arithmetic mean of that many centroids chosen at random
from the current candidate list.  ReplenishNodes_ coincides with this
shared-size procedure on every input and every random supply. -/
theorem C6_shared_sample_size (P : ℕ) (r : ℕ → ℕ)
    (top_leaf_nodes : List (List ℚ)) :
    ReplenishNodes_ P r top_leaf_nodes =
      ReplenishSharedClaim P r top_leaf_nodes := by
  cases top_leaf_nodes with
  | nil => rfl
  | cons c0 rest =>
      simp [ReplenishNodes_, ReplenishSharedClaim, padLoop_eq_iterate]

/-- A phase-6 receive step of ReadjustCentroids_: a blocking network
receive with source rank and message tag, or the direct local copy of the
points the process keeps for itself. -/
inductive RecvStep where
  | network (src : ℕ) (tag : ℕ)
  | selfCopy
deriving DecidableEq

/-- A phase-6 non-blocking send: destination rank and message tag. -/
structure SendEvent where
  dest : ℕ
  tag : ℕ
deriving DecidableEq

/-- The neighbor radius of ReadjustCentroids_: the communicator size. -/
def neighbor_radius (P : ℕ) : ℕ := P

/-- The number of left contributions: min(rank, neighbor_radius). -/
def numLeft (P rank : ℕ) : ℕ := min rank (neighbor_radius P)

/-- The number of right contributions:
min(size - rank - 1, neighbor_radius). -/
def numRight (P rank : ℕ) : ℕ := min (P - rank - 1) (neighbor_radius P)

/-- The non-blocking sends issued by ReadjustCentroids_, in program order:
for i = 1..numLeft an isend to rank - i with tag i, then for
i = 1..numRight an isend to rank + i with tag neighbor_radius + i. -/
def phase6Sends (P rank : ℕ) : List SendEvent :=
  (List.range (numLeft P rank)).map
    (fun i0 => { dest := rank - (i0 + 1), tag := i0 + 1 }) ++
  (List.range (numRight P rank)).map
    (fun i0 => { dest := rank + (i0 + 1),
                 tag := neighbor_radius P + (i0 + 1) })

/-- The receive side of phase 6, in program order: blocking receives from
rank - i with tag neighbor_radius + i for i = 1..numLeft, then the local
copy of the points kept by this process, then blocking receives from
rank + i with tag i for i = 1..numRight.  The fragment of step k is
written at the running offset, the total size of the k fragments before
it. -/
def phase6Recvs (P rank : ℕ) : List RecvStep :=
  (List.range (numLeft P rank)).map
    (fun i0 => RecvStep.network (rank - (i0 + 1))
      (neighbor_radius P + (i0 + 1))) ++
  [RecvStep.selfCopy] ++
  (List.range (numRight P rank)).map
    (fun i0 => RecvStep.network (rank + (i0 + 1)) (i0 + 1))

/-- The source rank a receive step reads from (the self copy reads the
process itself). -/
def RecvStep.src (ev : RecvStep) (rank : ℕ) : ℕ :=
  match ev with
  | RecvStep.network s _ => s
  | RecvStep.selfCopy => rank

/-- The sender ranks of the phase-6 receive schedule, in program order. -/
def recvSrcOrder (P rank : ℕ) : List ℕ :=
  (phase6Recvs P rank).map (fun ev => ev.src rank)

/-- Modelled from the claim wording of C3: receives from left neighbors in
ascending sender rank (farthest-left neighbor first), then the self copy,
then right neighbors in ascending sender rank. -/
def recvSrcOrderClaimC3 (P rank : ℕ) : List ℕ :=
  (List.range (numLeft P rank)).map
    (fun i0 => rank - numLeft P rank + i0) ++
  [rank] ++
  (List.range (numRight P rank)).map (fun i0 => rank + (i0 + 1))

/-- Claim C3, counterexample: at group size 3, rank 2 has the two left
neighbors 0 and 1; the code receives from rank 1 first and rank 0 second
(nearest-left first), not in the ascending farthest-left-first order the
claim states. -/
theorem C3_counterexample : recvSrcOrder 3 2 ≠ recvSrcOrderClaimC3 3 2 := by
  decide

/-- Positions of a flattened list of fragments: the fragment of index i
occupies the slice starting at the running offset, the total length of the
fragments before it. -/
theorem flatten_slice_at {α : Type} (L : List (List α)) :
    ∀ (i : ℕ) (h : i < L.length),
      ((L.flatten.take (((L.map List.length).take (i+1)).sum)).drop
        (((L.map List.length).take i).sum)) = L.get ⟨i, h⟩ := by
  induction L with
  | nil => intro i h; simp at h
  | cons a t ih =>
      intro i h
      cases i with
      | zero => simp [List.take_left]
      | succ n =>
          have hn : n < t.length := by
            simpa using h
          have hrec := ih n hn
          simp only [List.map_cons, List.take_succ_cons, List.sum_cons,
            List.flatten_cons, List.take_append, List.drop_append,
            List.get_cons_succ]
          exact hrec

/-- Claim C3, amended: the blocking receives of phase 6 run in program
order nearest-left neighbor first (descending sender rank rank-1, rank-2,
...), then the self copy, then right neighbors in ascending sender rank
(rank+1, rank+2, ...); each fragment is written into the new shard buffer
at the running offset immediately following the previous fragment. -/
theorem C3_recv_order_and_offsets (P rank : ℕ) (frag : RecvStep → List ℚ)
    (hrank : rank < P) :
    ((phase6Recvs P rank).length =
        numLeft P rank + 1 + numRight P rank) ∧
    (∀ i0, i0 < numLeft P rank →
      (phase6Recvs P rank)[i0]? =
        some (RecvStep.network (rank - (i0 + 1))
          (neighbor_radius P + (i0 + 1)))) ∧
    ((phase6Recvs P rank)[numLeft P rank]? = some RecvStep.selfCopy) ∧
    (∀ i0, i0 < numRight P rank →
      (phase6Recvs P rank)[numLeft P rank + 1 + i0]? =
        some (RecvStep.network (rank + (i0 + 1)) (i0 + 1))) ∧
    (∀ (k : ℕ) (hk : k < ((phase6Recvs P rank).map frag).length),
      ((((phase6Recvs P rank).map frag).flatten.take
          (((((phase6Recvs P rank).map frag).map List.length).take
            (k + 1)).sum)).drop
        (((((phase6Recvs P rank).map frag).map List.length).take k).sum)) =
      ((phase6Recvs P rank).map frag).get ⟨k, hk⟩) := by
  refine ⟨?_, ?_, ?_, ?_, ?_⟩
  · simp [phase6Recvs]
    omega
  · intro i0 hi
    rw [phase6Recvs, List.append_assoc,
      List.getElem?_append_left (by simpa using hi)]
    simp [List.getElem?_range hi]
  · rw [phase6Recvs, List.append_assoc,
      List.getElem?_append_right (by simp)]
    simp
  · intro i0 hi
    rw [phase6Recvs, List.append_assoc,
      List.getElem?_append_right (by simp; omega)]
    have h1 : numLeft P rank + 1 + i0 -
        ((List.range (numLeft P rank)).map
          (fun i0 => RecvStep.network (rank - (i0 + 1))
            (neighbor_radius P + (i0 + 1)))).length = 1 + i0 := by
      simp only [List.length_map, List.length_range]
      omega
    rw [h1, List.getElem?_append_right (by simp)]
    have h2 : 1 + i0 - [RecvStep.selfCopy].length = i0 := by
      simp
    rw [h2]
    simp [List.getElem?_range hi]
  · intro k hk
    exact flatten_slice_at ((phase6Recvs P rank).map frag) k hk

/-- Claim C3, witness: at group size 3, rank 1, the self copy sits at
schedule position numLeft = 1. -/
theorem C3_witness :
    1 < 3 ∧ (phase6Recvs 3 1)[numLeft 3 1]? = some RecvStep.selfCopy :=
  ⟨by decide,
    (C3_recv_order_and_offsets 3 1 (fun _ => [0]) (by decide)).2.2.1⟩

/-- Claim C4: a send from rank to rank - i carries tag i and the receiver
rank - i posts its matching blocking receive from rank with tag i; a send
from rank to rank + i carries tag neighbor_radius + i and the receiver
rank + i posts its matching receive from rank with tag
neighbor_radius + i; the two opposite-direction fragments between a fixed
pair of ranks never share a tag. -/
theorem C4_tags_match (P rank i : ℕ) (hrank : rank < P) (hi : 1 ≤ i) :
    (i ≤ numLeft P rank →
      ({ dest := rank - i, tag := i } : SendEvent) ∈ phase6Sends P rank ∧
      RecvStep.network rank i ∈ phase6Recvs P (rank - i)) ∧
    (i ≤ numRight P rank →
      ({ dest := rank + i, tag := neighbor_radius P + i } : SendEvent) ∈
        phase6Sends P rank ∧
      RecvStep.network rank (neighbor_radius P + i) ∈
        phase6Recvs P (rank + i)) ∧
    neighbor_radius P + i ≠ i := by
  simp only [numLeft, numRight, neighbor_radius] at *
  refine ⟨?_, ?_, ?_⟩
  · intro hle
    constructor
    · simp only [phase6Sends, List.mem_append, List.mem_map, List.mem_range,
        numLeft, numRight, neighbor_radius]
      left
      refine ⟨i - 1, by omega, ?_⟩
      have h1 : i - 1 + 1 = i := by omega
      rw [h1]
    · simp only [phase6Recvs, List.mem_append, List.mem_map, List.mem_range,
        numLeft, numRight, neighbor_radius, List.mem_singleton]
      right
      refine ⟨i - 1, by omega, ?_⟩
      have h1 : i - 1 + 1 = i := by omega
      have h2 : rank - i + i = rank := by omega
      rw [h1, h2]
  · intro hle
    constructor
    · simp only [phase6Sends, List.mem_append, List.mem_map, List.mem_range,
        numLeft, numRight, neighbor_radius]
      right
      refine ⟨i - 1, by omega, ?_⟩
      have h1 : i - 1 + 1 = i := by omega
      rw [h1]
    · simp only [phase6Recvs, List.mem_append, List.mem_map, List.mem_range,
        numLeft, numRight, neighbor_radius, List.mem_singleton]
      left
      left
      refine ⟨i - 1, by omega, ?_⟩
      have h1 : i - 1 + 1 = i := by omega
      have h2 : rank + i - i = rank := by omega
      rw [h1, h2]
  · omega

/-- Claim C4, witness: group size 3, rank 1, offset 1: both directions
exist and the matching memberships hold with distinct tags. -/
theorem C4_witness :
    1 < 3 ∧ 1 ≤ 1 ∧
    ((1 ≤ numLeft 3 1 →
      ({ dest := 1 - 1, tag := 1 } : SendEvent) ∈ phase6Sends 3 1 ∧
      RecvStep.network 1 1 ∈ phase6Recvs 3 (1 - 1)) ∧
    (1 ≤ numRight 3 1 →
      ({ dest := 1 + 1, tag := neighbor_radius 3 + 1 } : SendEvent) ∈
        phase6Sends 3 1 ∧
      RecvStep.network 1 (neighbor_radius 3 + 1) ∈ phase6Recvs 3 (1 + 1)) ∧
    neighbor_radius 3 + 1 ≠ 1) :=
  ⟨by decide, by decide, C4_tags_match 3 1 1 (by decide) (by decide)⟩

/-- TakeLeafNodeOwnerShip_: with more than one process the distributed
auction (an external collaborator whose result is an input here) decides
the assignment; with a single process the result is 0 and the auction is
never invoked.  The Bool records whether the auction ran. -/
def TakeLeafNodeOwnerShip_ (P : ℕ) (auctionResult : ℕ) : ℕ × Bool :=
  if 1 < P then (auctionResult, true) else (0, false)

/-- The point-to-point traffic of the sample-aggregation step of
IndexData: rank 0 posts one blocking receive per other process and copies
its own sample buffer locally (memcpy, no message); every other rank
posts exactly one send to rank 0. -/
def sampleAggregationP2P (P rank : ℕ) : ℕ :=
  if rank = 0 then P - 1 else 1

/-- Claim C7: with group size 1 the only rank is 0, phase 6 issues no
sends and its receive side is just the local self copy, the sample
aggregation sends no message (a local copy only), and the leaf assignment
is 0 without invoking the auction. -/
theorem C7_single_process_degeneracy (rank auctionResult : ℕ)
    (hrank : rank < 1) :
    phase6Sends 1 rank = [] ∧
    phase6Recvs 1 rank = [RecvStep.selfCopy] ∧
    sampleAggregationP2P 1 rank = 0 ∧
    TakeLeafNodeOwnerShip_ 1 auctionResult = (0, false) := by
  have h0 : rank = 0 := by omega
  subst h0
  exact ⟨rfl, rfl, rfl, rfl⟩

/-- Claim C7, witness: rank 0, an arbitrary auction value 7. -/
theorem C7_witness :
    0 < 1 ∧
    (phase6Sends 1 0 = [] ∧
     phase6Recvs 1 0 = [RecvStep.selfCopy] ∧
     sampleAggregationP2P 1 0 = 0 ∧
     TakeLeafNodeOwnerShip_ 1 7 = (0, false)) :=
  ⟨by decide, C7_single_process_degeneracy 0 7 (by decide)⟩

/-- Modelled from the spec: the point-and-provenance fragment process q
contributes to destination rank dest — the points of the shard of q whose
destination assignment is dest, in local storage order (the
OffsetDenseMatrix carrier is not part of the sources; the spec describes
it as the contiguous fragment of points assigned to that destination). -/
def fragment (shards : ℕ → List (List ℚ)) (assign : ℕ → ℕ → ℕ)
    (q dest : ℕ) : List (List ℚ) :=
  ((List.range (shards q).length).filter
    (fun i => assign q i = dest)).map (fun i => (shards q).getD i [])

/-- The new local shard assembled by the phase-6 receive loop of process
r: the fragments delivered by the schedule steps, concatenated in receive
order (network fragments from the neighbors, the self fragment copied
locally). -/
def newShard (P : ℕ) (shards : ℕ → List (List ℚ))
    (assign : ℕ → ℕ → ℕ) (r : ℕ) : List (List ℚ) :=
  ((phase6Recvs P r).map
    (fun ev => fragment shards assign (ev.src r) r)).flatten

/-- Sum of a mapped range as a Finset sum. -/
theorem sum_map_range (f : ℕ → ℕ) (n : ℕ) :
    ((List.range n).map f).sum = ∑ i ∈ Finset.range n, f i := by
  induction n with
  | zero => rfl
  | succ m ih =>
      rw [List.range_succ, List.map_append, List.sum_append,
        Finset.sum_range_succ, ih]
      simp

/-- With neighbor radius = P the phase-6 schedule of a rank r < P receives
one fragment from every rank: the new shard of r collects exactly the
fragments destined to r from all P processes. -/
theorem newShard_length (P : ℕ) (shards : ℕ → List (List ℚ))
    (assign : ℕ → ℕ → ℕ) (r : ℕ) (hr : r < P) :
    (newShard P shards assign r).length =
      ∑ q ∈ Finset.range P, (fragment shards assign q r).length := by
  have hL : numLeft P r = r := by
    simp [numLeft, neighbor_radius]; omega
  have hR : numRight P r = P - r - 1 := by
    simp [numRight, neighbor_radius]; omega
  rw [newShard, List.length_flatten, List.map_map, phase6Recvs, hL, hR]
  rw [List.map_append, List.map_append, List.sum_append, List.sum_append]
  rw [List.map_map, List.map_map]
  have hleft :
      ((List.range r).map
        ((List.length ∘ fun ev => fragment shards assign (ev.src r) r) ∘
          fun i0 => RecvStep.network (r - (i0 + 1))
            (neighbor_radius P + (i0 + 1)))).sum =
      ∑ q ∈ Finset.range r, (fragment shards assign q r).length := by
    rw [sum_map_range]
    simp only [Function.comp_apply, RecvStep.src]
    have hcg : ∀ i0 ∈ Finset.range r,
        (fragment shards assign (r - (i0 + 1)) r).length =
          (fragment shards assign (r - 1 - i0) r).length := by
      intro i0 _
      congr 2
      omega
    rw [Finset.sum_congr rfl hcg]
    exact Finset.sum_range_reflect
      (fun q => (fragment shards assign q r).length) r
  have hright :
      ((List.range (P - r - 1)).map
        ((List.length ∘ fun ev => fragment shards assign (ev.src r) r) ∘
          fun i0 => RecvStep.network (r + (i0 + 1)) (i0 + 1))).sum =
      ∑ q ∈ Finset.Ico (r + 1) P, (fragment shards assign q r).length := by
    rw [sum_map_range]
    simp only [Function.comp_apply, RecvStep.src]
    rw [Finset.sum_Ico_eq_sum_range]
    refine Finset.sum_congr rfl ?_
    intro i0 _
    congr 2
    omega
  rw [hleft]
  simp only [List.map_cons, List.map_nil, List.sum_cons, List.sum_nil]
  rw [hright]
  simp only [Function.comp_apply, RecvStep.src]
  have hsplit : ∑ q ∈ Finset.range P, (fragment shards assign q r).length =
      ∑ q ∈ Finset.range (r + 1), (fragment shards assign q r).length +
      ∑ q ∈ Finset.Ico (r + 1) P, (fragment shards assign q r).length := by
    rw [Finset.range_eq_Ico]
    exact (Finset.sum_Ico_consecutive _ (by omega) (by omega)).symm
  rw [hsplit, Finset.sum_range_succ]
  omega

/-- A list whose elements all map below P is partitioned by the fibers of
the destination function. -/
theorem length_filter_partition (f : ℕ → ℕ) (P : ℕ) :
    ∀ (l : List ℕ), (∀ x ∈ l, f x < P) →
      (∑ r ∈ Finset.range P, (l.filter (fun x => f x = r)).length) =
        l.length := by
  intro l
  induction l with
  | nil => intro _; simp
  | cons a t ih =>
      intro hv
      have hsum : ∀ r, ((a :: t).filter (fun x => f x = r)).length =
          (if f a = r then 1 else 0) +
            (t.filter (fun x => f x = r)).length := by
        intro r
        by_cases h : f a = r <;> simp [List.filter_cons, h] <;> omega
      simp only [hsum]
      rw [Finset.sum_add_distrib]
      have hind : (∑ r ∈ Finset.range P, if f a = r then 1 else 0) = 1 := by
        rw [Finset.sum_ite_eq]
        simp [hv a (by simp)]
      rw [hind, ih (fun x hx => hv x (by simp [hx]))]
      simp [Nat.add_comm]

/-- Claim C1: for every group size P ≥ 1, when the per-point destination
assignments are valid ranks and each process allocates its new shard to
the total the migration delivers to it (the mutual-consistency hypothesis
on the clustering solver output), the sum over all P processes of shard
sizes after the phase-6 migration equals the sum before: points are
moved, never dropped or duplicated.  The sample-subset phases of
IndexData work on temporary buffers and never change the owned shard
sizes, so this is the conservation property of the whole call. -/
theorem C1_conservation (P : ℕ) (shards : ℕ → List (List ℚ))
    (assign : ℕ → ℕ → ℕ) (total_num_points_owned : ℕ → ℕ)
    (hP : 1 ≤ P)
    (hvalid : ∀ q, q < P → ∀ i, i < (shards q).length → assign q i < P)
    (hcons : ∀ r, r < P →
      total_num_points_owned r = (newShard P shards assign r).length) :
    ∑ r ∈ Finset.range P, total_num_points_owned r =
      ∑ q ∈ Finset.range P, (shards q).length := by
  have h1 : ∀ r ∈ Finset.range P, total_num_points_owned r =
      ∑ q ∈ Finset.range P, (fragment shards assign q r).length := by
    intro r hrm
    rw [hcons r (Finset.mem_range.mp hrm),
      newShard_length P shards assign r (Finset.mem_range.mp hrm)]
  rw [Finset.sum_congr rfl h1, Finset.sum_comm]
  refine Finset.sum_congr rfl ?_
  intro q hq
  have hfrag : ∀ r, (fragment shards assign q r).length =
      ((List.range (shards q).length).filter
        (fun i => assign q i = r)).length := by
    intro r
    rw [fragment, List.length_map]
  simp only [hfrag]
  rw [length_filter_partition (assign q) P (List.range (shards q).length)
    (fun x hx => hvalid q (Finset.mem_range.mp hq) x (List.mem_range.mp hx))]
  simp

/-- Two shards for the conservation witness: [[1],[2]] at rank 0, [[3]] at
rank 1. -/
def c1shards : ℕ → List (List ℚ) :=
  fun q => if q = 0 then [[1], [2]] else if q = 1 then [[3]] else []

/-- Witness assignment: point 0 of rank 0 moves to rank 1, all others stay
at rank 0. -/
def c1assign : ℕ → ℕ → ℕ := fun q i => if q = 0 ∧ i = 0 then 1 else 0

/-- Witness owned totals: rank 0 ends with 2 points, rank 1 with 1. -/
def c1owned : ℕ → ℕ := fun r => if r = 0 then 2 else 1

/-- Claim C1, witness: two processes, three points in total; after the
migration the shard sizes still sum to three. -/
theorem C1_witness :
    (1 ≤ 2) ∧
    (∀ q, q < 2 → ∀ i, i < (c1shards q).length → c1assign q i < 2) ∧
    (∀ r, r < 2 → c1owned r = (newShard 2 c1shards c1assign r).length) ∧
    (∑ r ∈ Finset.range 2, c1owned r =
      ∑ q ∈ Finset.range 2, (c1shards q).length) := by
  have hv : ∀ q, q < 2 → ∀ i, i < (c1shards q).length → c1assign q i < 2 := by
    intro q hq i hi
    simp only [c1assign]
    split_ifs <;> omega
  have hc : ∀ r, r < 2 → c1owned r = (newShard 2 c1shards c1assign r).length := by
    intro r hr
    interval_cases r <;> decide
  exact ⟨by decide, hv, hc,
    C1_conservation 2 c1shards c1assign c1owned (by decide) hv hc⟩

end DistributedTableSpec
